import Mathlib

/-!
Verification of the similarity-detection engine of `uploads/app.py`
(plagiarism screening service).

The Python source is shallowly embedded below.  Conventions used throughout:

* `hashlib.md5(s).hexdigest()` is modelled as an opaque digest determined by
  its preimage (`Digest`): the digest is used only as an equality proxy, and
  the spec (§3, §9) treats collisions between unrelated strings as an
  accepted, unmitigated risk, so the model identifies digest equality with
  preimage equality.
* `re.sub(r'\b\w+\b', 'TOKEN', s)` replaces every maximal run of
  word-characters with `TOKEN`; it is implemented directly on the character
  list (`maskWords`).
* `str.splitlines()` is modelled on the `'\n'` separator (`pySplitlines`);
  the exotic Unicode line boundaries Python also recognises do not occur in
  the texts under study.
* `ast.parse` / `ast.dump` are external-library calls; they are modelled on
  the fragment of single-line Python statements exercised here (simple
  assignments, bare binary-operator expressions, one-line function
  definitions with a `return`), yielding `none` on everything else — the
  same silent-failure path the source takes for unparseable lines.
  Indentation errors and multi-statement lines are outside the fragment.
* Python dicts and sets are modelled as insertion-ordered association lists
  (`dictInsert`) and insertion-ordered key lists (`setInsert`); only key
  membership is ever observed by the program.
* The filesystem and the PDF/DOCX container libraries are modelled by a
  `FileSystem` record of fallible accessors (`Except` in place of raised
  exceptions).
-/

/-- An md5 hexdigest, modelled as an opaque token determined by the hashed
string (collisions out of scope per spec §3/§9). -/
structure Digest where
  preimage : String
deriving DecidableEq, Repr

/-- Model of `hashlib.md5(s.encode()).hexdigest()`. -/
def md5 (s : String) : Digest := ⟨s⟩

/-- Python `\w` word characters (ASCII fragment): alphanumerics and `_`. -/
def isWordChar (c : Char) : Bool := c.isAlphanum || c = '_'

/-- `re.sub(r'\b\w+\b', 'TOKEN', ·)` on a character list: every maximal run
of word characters is replaced by `TOKEN`.  The boolean argument records
whether we are inside a word run whose `TOKEN` was already emitted. -/
def maskWordsAux : Bool → List Char → List Char
  | _, [] => []
  | inWord, c :: rest =>
    if isWordChar c then
      if inWord then maskWordsAux true rest
      else 'T' :: 'O' :: 'K' :: 'E' :: 'N' :: maskWordsAux true rest
    else c :: maskWordsAux false rest

/-- `re.sub(r'\b\w+\b', 'TOKEN', s)`. -/
def maskWords (s : String) : String := String.mk (maskWordsAux false s.data)

/-- `get_text_hash` from the source: mask word runs, then md5. -/
def get_text_hash (text : String) : Digest := md5 (maskWords text)

/-- `get_tokens` from the source: mask word runs, then md5. -/
def get_tokens (code : String) : Digest := md5 (maskWords code)

/-- `str.splitlines()` on the character list, `'\n'` as terminator:
`"a\n" ↦ ["a"]`, `"a\nb" ↦ ["a","b"]`, `"" ↦ []`, `"\n" ↦ [""]`. -/
def pySplitlinesAux : List Char → List (List Char)
  | [] => []
  | c :: rest =>
    if c = '\n' then [] :: pySplitlinesAux rest
    else
      match pySplitlinesAux rest with
      | [] => [[c]]
      | l :: ls => (c :: l) :: ls

/-- `str.splitlines()`. -/
def pySplitlines (s : String) : List String :=
  (pySplitlinesAux s.data).map String.mk

/-! ### Model of `ast.parse` / redaction walk / `ast.dump`

The fragment covers the single-line statements the engine's lines fall
into: `NAME = EXPR`, a bare expression, and
`def NAME(ARGS): return EXPR` with `EXPR` an atom or a single binary
operation on atoms. -/

/-- Expression nodes of the modelled `ast` fragment. -/
inductive PyExpr where
  | name (id : String)
  | const (n : Nat)
  | binop (left : PyExpr) (op : String) (right : PyExpr)
deriving DecidableEq, Repr

/-- Statement nodes of the modelled `ast` fragment.  A `funcNode` body is the
single `return` expression this fragment admits. -/
inductive PyStmt where
  | assign (target : PyExpr) (value : PyExpr)
  | exprStmt (e : PyExpr)
  | funcNode (nm : String) (args : List String) (retval : PyExpr)
deriving DecidableEq, Repr

/-- Tokenizer for the fragment: word runs become one token, spaces are
skipped, every other character is a one-character token.  The accumulator
holds the current word run, reversed. -/
def pyTokenizeAux : List Char → List Char → List String
  | acc, [] => if acc.isEmpty then [] else [String.mk acc.reverse]
  | acc, c :: rest =>
    if isWordChar c then pyTokenizeAux (c :: acc) rest
    else
      let tail :=
        if c = ' ' then pyTokenizeAux [] rest
        else String.mk [c] :: pyTokenizeAux [] rest
      if acc.isEmpty then tail else String.mk acc.reverse :: tail

/-- Tokenize a source line. -/
def pyTokenize (s : String) : List String := pyTokenizeAux [] s.data

/-- Keywords of the fragment: not usable as identifiers. -/
def pyKeywords : List String := ["def", "return"]

/-- Is the token an identifier? -/
def isIdentTok (t : String) : Bool :=
  !t.data.isEmpty && t.data.all isWordChar &&
    !(t.data.headD 'a').isDigit && !pyKeywords.contains t

/-- Is the token a numeric literal? -/
def isNumTok (t : String) : Bool := !t.data.isEmpty && t.data.all Char.isDigit

/-- Binary operators admitted by the fragment. -/
def pyBinOps : List String := ["+", "-", "*", "/", "%"]

/-- Numeric value of a digit-only token (base ten). -/
def digitsToNat (cs : List Char) : Nat :=
  cs.foldl (fun n c => 10 * n + (c.toNat - '0'.toNat)) 0

/-- Parse an atom: identifier or nonnegative integer literal. -/
def parseAtom (t : String) : Option PyExpr :=
  if isNumTok t then some (PyExpr.const (digitsToNat t.data))
  else if isIdentTok t then some (PyExpr.name t)
  else none

/-- Parse an expression: an atom, or `atom op atom`. -/
def parseExpr : List String → Option PyExpr
  | [t] => parseAtom t
  | [a, op, b] =>
    if pyBinOps.contains op then
      match parseAtom a, parseAtom b with
      | some l, some r => some (PyExpr.binop l op r)
      | _, _ => none
    else none
  | _ => none

/-- Parse a comma-separated parameter list. -/
def parseArgs : List String → Option (List String)
  | [] => some []
  | [t] => if isIdentTok t then some [t] else none
  | t :: "," :: rest =>
    if isIdentTok t then (parseArgs rest).map (t :: ·) else none
  | _ => none

/-- Parse one statement of the fragment. -/
def parseStmt (toks : List String) : Option PyStmt :=
  match toks with
  | "def" :: nm :: "(" :: rest =>
    if isIdentTok nm then
      let argToks := rest.takeWhile (· ≠ ")")
      match rest.dropWhile (· ≠ ")") with
      | ")" :: ":" :: "return" :: exprToks =>
        match parseArgs argToks, parseExpr exprToks with
        | some args, some e => some (PyStmt.funcNode nm args e)
        | _, _ => none
      | _ => none
    else none
  | t :: "=" :: rest =>
    if isIdentTok t then (parseExpr rest).map (PyStmt.assign (PyExpr.name t))
    else none
  | toks => (parseExpr toks).map PyStmt.exprStmt

/-- `ast.parse` on one line of the fragment: an empty token stream yields the
empty module (as CPython does for `""`); otherwise a single statement. -/
def pyParse (code : String) : Option (List PyStmt) :=
  match pyTokenize code with
  | [] => some []
  | toks => (parseStmt toks).map ([·])

/-- The redaction walk on expressions: every `Name` id becomes `REDACTED`. -/
def redactExpr : PyExpr → PyExpr
  | .name _ => .name "REDACTED"
  | .const n => .const n
  | .binop l op r => .binop (redactExpr l) op (redactExpr r)

/-- The redaction walk on statements: declaration names, parameter names and
name references all become `REDACTED`. -/
def redactStmt : PyStmt → PyStmt
  | .assign t v => .assign (redactExpr t) (redactExpr v)
  | .exprStmt e => .exprStmt (redactExpr e)
  | .funcNode _ args e => .funcNode "REDACTED" (args.map fun _ => "REDACTED") (redactExpr e)

/-- Canonical rendering of an operator node, as `ast.dump` shows it. -/
def opDump (op : String) : String :=
  if op = "+" then "Add()"
  else if op = "-" then "Sub()"
  else if op = "*" then "Mult()"
  else if op = "/" then "Div()"
  else if op = "%" then "Mod()"
  else "Op(" ++ op ++ ")"

/-- `ast.dump` rendering of an expression node. -/
def dumpExpr : PyExpr → String
  | .name id => "Name(id='" ++ id ++ "')"
  | .const n => "Constant(value=" ++ toString n ++ ")"
  | .binop l op r =>
    "BinOp(left=" ++ dumpExpr l ++ ", op=" ++ opDump op ++
      ", right=" ++ dumpExpr r ++ ")"

/-- `ast.dump` rendering of a statement node. -/
def dumpStmt : PyStmt → String
  | .assign t v =>
    "Assign(targets=[" ++ dumpExpr t ++ "], value=" ++ dumpExpr v ++ ")"
  | .exprStmt e => "Expr(value=" ++ dumpExpr e ++ ")"
  | .funcNode nm args e =>
    "FunctionDef(name='" ++ nm ++ "', args=arguments(args=[" ++
      String.intercalate ", " (args.map fun a => "arg(arg='" ++ a ++ "')") ++
      "]), body=[Return(value=" ++ dumpExpr e ++ ")])"

/-- `ast.dump` of a whole (one-line) module. -/
def dumpModule (stmts : List PyStmt) : String :=
  "Module(body=[" ++ String.intercalate ", " (stmts.map dumpStmt) ++
    "], type_ignores=[])"

/-- `get_ast_hash` from the source: parse, redact every declaration /
parameter / reference name, dump, md5; `none` when parsing fails. -/
def get_ast_hash (code : String) : Option Digest :=
  (pyParse code).map fun tree => md5 (dumpModule (tree.map redactStmt))

/-! ### The hash table (Python dict / set) and the two comparators -/

/-- The per-line fingerprints `(normalized_hash, tokenized_hash)`, exactly as
computed in both comparator loops of the source: structured content tries the
AST strategy and always takes the token-shape strategy; free text takes only
the word-masking strategy. -/
def lineHashes (is_code : Bool) (line : String) : Option Digest × Option Digest :=
  if is_code then (get_ast_hash line, some (get_tokens line))
  else (some (get_text_hash line), none)

/-- Key membership in the dict model. -/
def dictHas (d : List (Digest × String)) (k : Digest) : Bool :=
  d.any fun p => p.1 = k

/-- `hash_table[k] = v` on a Python dict modelled as an insertion-ordered
association list: an existing key keeps its position and gets the new value,
a fresh key is appended. -/
def dictInsert (d : List (Digest × String)) (k : Digest) (v : String) :
    List (Digest × String) :=
  if dictHas d k then d.map fun p => if p.1 = k then (k, v) else p
  else d ++ [(k, v)]

/-- Membership in the set model. -/
def setHas (s : List Digest) (k : Digest) : Bool := s.any fun x => x = k

/-- `hash_table.add(k)` on a Python set modelled as an insertion-ordered key
list. -/
def setInsert (s : List Digest) (k : Digest) : List Digest :=
  if setHas s k then s else s ++ [k]

/-- One iteration of the index-building loop of `compare_files`: insert the
AST hash (when produced) and the token hash (when produced) into the dict,
each mapping to the line. -/
def dictStep (is_code : Bool) (d : List (Digest × String)) (line : String) :
    List (Digest × String) :=
  let h := lineHashes is_code line
  let d1 := match h.1 with
    | some k => dictInsert d k line
    | none => d
  match h.2 with
  | some k => dictInsert d1 k line
  | none => d1

/-- The index-building loop of `compare_files`. -/
def buildDict (lines : List String) (is_code : Bool) : List (Digest × String) :=
  lines.foldl (dictStep is_code) []

/-- One iteration of the index-building loop of `compare_two_codes`: the same
insertions into a flat set. -/
def setStep (is_code : Bool) (s : List Digest) (line : String) : List Digest :=
  let h := lineHashes is_code line
  let s1 := match h.1 with
    | some k => setInsert s k
    | none => s
  match h.2 with
  | some k => setInsert s1 k
  | none => s1

/-- The index-building loop of `compare_two_codes`. -/
def buildSet (lines : List String) (is_code : Bool) : List Digest :=
  lines.foldl (setStep is_code) []

/-- The probe test of `compare_files`:
`normalized_hash in hash_table or (tokenized_hash and tokenized_hash in hash_table)`
(a `None` hash is never a dict key, and a `None` tokenized hash is falsy). -/
def probeHitDict (d : List (Digest × String)) (is_code : Bool) (line : String) : Bool :=
  let h := lineHashes is_code line
  (match h.1 with
    | some k => dictHas d k
    | none => false) ||
  (match h.2 with
    | some k => dictHas d k
    | none => false)

/-- The probe test of `compare_two_codes`, against the flat set. -/
def probeHitSet (s : List Digest) (is_code : Bool) (line : String) : Bool :=
  let h := lineHashes is_code line
  (match h.1 with
    | some k => setHas s k
    | none => false) ||
  (match h.2 with
    | some k => setHas s k
    | none => false)

/-- The result dictionary returned by `compare_files`. -/
structure OverlapResult where
  overlap_percentage : ℚ
  overlap_count : Nat
  overlapping_lines : List String
deriving DecidableEq, Repr

/-- The comparison core of `compare_files` (everything after the two file
reads): index the reference document's lines, collect the probe document's
matching lines in order (each matched line counts exactly once), and score
`overlap_count / total_lines * 100` with `0` for an empty probe. -/
def compare_files_core (content1 content2 : String) (is_code : Bool) : OverlapResult :=
  let lines1 := pySplitlines content1
  let lines2 := pySplitlines content2
  let hash_table := buildDict lines1 is_code
  let overlapping_lines := lines2.filter (probeHitDict hash_table is_code)
  let overlap_count := overlapping_lines.length
  let total_lines := lines2.length
  let overlap_percentage : ℚ :=
    if total_lines > 0 then ((overlap_count : ℚ) / (total_lines : ℚ)) * 100 else 0
  ⟨overlap_percentage, overlap_count, overlapping_lines⟩

/-- `compare_two_codes` from the source: the scalar comparator used by the
batch grouper, returning `(overlap_percentage, overlap_count)`. -/
def compare_two_codes (code1 code2 : String) (is_code : Bool) : ℚ × Nat :=
  let lines1 := pySplitlines code1
  let lines2 := pySplitlines code2
  let hash_table := buildSet lines1 is_code
  let overlap_count := (lines2.filter (probeHitSet hash_table is_code)).length
  let total_lines := lines2.length
  (if total_lines > 0 then ((overlap_count : ℚ) / (total_lines : ℚ)) * 100 else 0,
    overlap_count)

/-! ### Filesystem boundary: extraction and `compare_files` proper -/

/-- The filesystem / container-library boundary.  `readRaw` is
`open(path).read()` (which raises on failure), `openPdf` yields the page
texts (opening may fail, and each page load / text extraction may fail),
`openDocx` yields the paragraph texts (opening may fail). -/
structure FileSystem where
  readRaw : String → Except String String
  openPdf : String → Except String (List (Except String String))
  openDocx : String → Except String (List String)

/-- The page loop of `extract_text_from_pdf`: accumulate page texts until the
first failure; text gathered before the failure is kept. -/
def collectPdfPages : List (Except String String) → String
  | [] => ""
  | Except.error _ :: _ => ""
  | Except.ok t :: rest => t ++ collectPdfPages rest

/-- `extract_text_from_pdf` from the source: any failure is caught and the
text accumulated so far is returned (empty when opening fails). -/
def extract_text_from_pdf (fs : FileSystem) (file_path : String) : String :=
  match fs.openPdf file_path with
  | Except.error _ => ""
  | Except.ok pages => collectPdfPages pages

/-- `extract_text_from_docx` from the source: paragraphs joined with a
trailing newline each; any failure is caught and yields the empty text. -/
def extract_text_from_docx (fs : FileSystem) (file_path : String) : String :=
  match fs.openDocx file_path with
  | Except.error _ => ""
  | Except.ok ps => String.join (ps.map (· ++ "\n"))

/-- `os.path.splitext(path)[1].lstrip('.')` for ordinary `name.ext` paths:
the text after the last dot, empty when there is no dot (the dotfile and
directory-separator subtleties of `splitext` do not arise here). -/
def extAfterDot (path : String) : String :=
  if path.data.contains '.' then
    String.mk (path.data.reverse.takeWhile (· ≠ '.')).reverse
  else ""

/-- The extension as `get_text_from_file` computes it:
`splitext(...)[1].lstrip('.').lower()` (lowercasing character by
character). -/
def extLower (path : String) : String :=
  String.mk ((extAfterDot path).data.map Char.toLower)

/-- `get_text_from_file` from the source.  The pdf and docx branches never
fail (their extractors swallow exceptions); the fallback branch propagates
any `open`/`read` failure. -/
def get_text_from_file (fs : FileSystem) (file_path : String) : Except String String :=
  let ext := extLower file_path
  if ext = "pdf" then Except.ok (extract_text_from_pdf fs file_path)
  else if ext = "docx" then Except.ok (extract_text_from_docx fs file_path)
  else fs.readRaw file_path

/-- `compare_files` from the source: read both files, then run the
comparison core. -/
def compare_files (fs : FileSystem) (file1 file2 : String) (is_code : Bool) :
    Except String OverlapResult := do
  let content1 ← get_text_from_file fs file1
  let content2 ← get_text_from_file fs file2
  pure (compare_files_core content1 content2 is_code)

/-! ### Batch grouping -/

/-- `itertools.combinations(l, 2)`: all index pairs `i < j`, in lexicographic
order of indices. -/
def combinations2 {α : Type} : List α → List (α × α)
  | [] => []
  | x :: xs => (xs.map fun y => (x, y)) ++ combinations2 xs

/-- `validate_all_same_language` from the source: the set of lowercased
extensions has at most one element. -/
def validate_all_same_language (file_paths : List String) : Bool :=
  ((file_paths.map extLower).dedup.length ≤ 1)

/-- The unsorted similarity list built by `group_similar_files`: one edge
`(file1, file2, percentage)` per combination, the content class decided by
the first file's (non-lowercased) extension, file contents looked up in the
`read_code_files` map (abstracted as a total content map, matching the
post-validation behaviour). -/
def group_similarities (contents : String → String) (file_paths : List String) :
    List (String × String × ℚ) :=
  (combinations2 file_paths).map fun p =>
    let is_code := !(["txt", "pdf", "docx"].contains (extAfterDot p.1))
    (p.1, p.2, (compare_two_codes (contents p.1) (contents p.2) is_code).1)

/-- The descending-percentage comparison used by
`sorted(similarities, key=lambda x: x[2], reverse=True)`. -/
def pctGE (a b : String × String × ℚ) : Bool := b.2.2 ≤ a.2.2

/-- `group_similar_files` from the source: all pairwise scalar comparisons,
stably sorted by descending percentage (CPython's sort is stable and
`reverse=True` preserves the relative order of ties). -/
def group_similar_files (contents : String → String) (file_paths : List String) :
    List (String × String × ℚ) :=
  (group_similarities contents file_paths).mergeSort pctGE

/-- A filesystem on which every raw read and every container open fails. -/
def fsAllFail : FileSystem :=
  ⟨fun _ => Except.error "boom", fun _ => Except.error "boom",
    fun _ => Except.error "boom"⟩

/-! ### Helper lemmas: hash-table membership -/

/-- Key membership after a dict insertion. -/
theorem dictHas_dictInsert (d : List (Digest × String)) (k : Digest) (v : String)
    (k' : Digest) :
    dictHas (dictInsert d k v) k' = true ↔ dictHas d k' = true ∨ k' = k := by
  unfold dictInsert
  by_cases h : dictHas d k = true
  · rw [if_pos h]
    unfold dictHas at *
    rw [List.any_map]
    simp only [List.any_eq_true, Function.comp, decide_eq_true_eq] at *
    constructor
    · rintro ⟨p, hp, hpk⟩
      by_cases hk : p.1 = k
      · rw [if_pos hk] at hpk
        right
        exact hpk.symm
      · rw [if_neg hk] at hpk
        exact Or.inl ⟨p, hp, hpk⟩
    · rintro (⟨p, hp, hpk⟩ | rfl)
      · by_cases hk : p.1 = k
        · obtain ⟨q, hq, hqk⟩ := h
          exact ⟨q, hq, by rw [if_pos hqk]; rw [hpk] at hk; exact hk.symm⟩
        · exact ⟨p, hp, by rw [if_neg hk]; exact hpk⟩
      · obtain ⟨q, hq, hqk⟩ := h
        exact ⟨q, hq, by rw [if_pos hqk]⟩
  · rw [if_neg h]
    unfold dictHas
    rw [List.any_append]
    simp [List.any_eq_true]
    constructor
    · rintro (h1 | h2)
      · exact Or.inl h1
      · exact Or.inr h2.symm
    · rintro (h1 | rfl)
      · exact Or.inl h1
      · exact Or.inr rfl

/-- Key membership after a set insertion. -/
theorem setHas_setInsert (s : List Digest) (k k' : Digest) :
    setHas (setInsert s k) k' = true ↔ setHas s k' = true ∨ k' = k := by
  unfold setInsert
  by_cases h : setHas s k = true
  · rw [if_pos h]
    constructor
    · exact Or.inl
    · rintro (h1 | rfl)
      · exact h1
      · exact h
  · rw [if_neg h]
    unfold setHas at *
    rw [List.any_append]
    simp [List.any_eq_true]
    constructor
    · rintro (h1 | h2)
      · exact Or.inl h1
      · exact Or.inr h2.symm
    · rintro (h1 | rfl)
      · exact Or.inl h1
      · exact Or.inr rfl

/-- Inserting the same fingerprint into agreeing dict and set keeps the key
sets in agreement. -/
theorem dictInsert_setInsert_keys {d : List (Digest × String)} {s : List Digest}
    (hds : ∀ k, dictHas d k = setHas s k) (k0 : Digest) (v : String) (k : Digest) :
    dictHas (dictInsert d k0 v) k = setHas (setInsert s k0) k := by
  rw [Bool.eq_iff_iff, dictHas_dictInsert, setHas_setInsert, hds]

/-- One loop iteration preserves the dict-keys/set agreement. -/
theorem dictStep_setStep_keys (ic : Bool) (line : String)
    (d : List (Digest × String)) (s : List Digest)
    (hds : ∀ k, dictHas d k = setHas s k) (k : Digest) :
    dictHas (dictStep ic d line) k = setHas (setStep ic s line) k := by
  rcases hl : lineHashes ic line with ⟨h1, h2⟩
  simp only [dictStep, setStep, hl]
  rcases h1 with _ | k1 <;> rcases h2 with _ | k2
  · exact hds k
  · exact dictInsert_setInsert_keys hds k2 line k
  · exact dictInsert_setInsert_keys hds k1 line k
  · exact dictInsert_setInsert_keys
      (fun k => dictInsert_setInsert_keys hds k1 line k) k2 line k

/-- The dict built by `compare_files` and the set built by
`compare_two_codes` contain exactly the same fingerprints. -/
theorem buildDict_buildSet_keys (lines : List String) (ic : Bool) (k : Digest) :
    dictHas (buildDict lines ic) k = setHas (buildSet lines ic) k := by
  unfold buildDict buildSet
  suffices h : ∀ (d : List (Digest × String)) (s : List Digest),
      (∀ k, dictHas d k = setHas s k) →
      ∀ k, dictHas (lines.foldl (dictStep ic) d) k
        = setHas (lines.foldl (setStep ic) s) k by
    exact h [] [] (fun _ => rfl) k
  induction lines with
  | nil => intro d s hds k; exact hds k
  | cons line rest ih =>
    intro d s hds k
    exact ih (dictStep ic d line) (setStep ic s line)
      (dictStep_setStep_keys ic line d s hds) k

/-- The probe tests of the two comparators agree on every line. -/
theorem probeHit_agree (lines : List String) (ic : Bool) (line : String) :
    probeHitDict (buildDict lines ic) ic line
      = probeHitSet (buildSet lines ic) ic line := by
  unfold probeHitDict probeHitSet
  rcases h1 : (lineHashes ic line).1 with _ | k1 <;>
    rcases h2 : (lineHashes ic line).2 with _ | k2 <;>
      simp only [buildDict_buildSet_keys]

/-- C2: the scalar comparator `compare_two_codes` and the full comparator
`compare_files` implement the identical matching algorithm: on any two texts
and either content class, the scalar pair equals the percentage and count
fields of the full result. -/
theorem claim2_scalar_full_equiv (code1 code2 : String) (is_code : Bool) :
    compare_two_codes code1 code2 is_code
      = ((compare_files_core code1 code2 is_code).overlap_percentage,
          (compare_files_core code1 code2 is_code).overlap_count) := by
  have hfilter :
      (pySplitlines code2).filter (probeHitSet (buildSet (pySplitlines code1) is_code) is_code)
        = (pySplitlines code2).filter (probeHitDict (buildDict (pySplitlines code1) is_code) is_code) :=
    List.filter_congr fun line _ => (probeHit_agree (pySplitlines code1) is_code line).symm
  simp only [compare_two_codes, compare_files_core, hfilter]

/-- Dict membership is preserved by an insertion. -/
theorem dictHas_mono_insert {d : List (Digest × String)} {k : Digest}
    (k0 : Digest) (v : String) (h : dictHas d k = true) :
    dictHas (dictInsert d k0 v) k = true :=
  (dictHas_dictInsert d k0 v k).mpr (Or.inl h)

/-- Dict membership is preserved by one index-building iteration. -/
theorem dictHas_mono_step (ic : Bool) (line : String)
    {d : List (Digest × String)} {k : Digest} (h : dictHas d k = true) :
    dictHas (dictStep ic d line) k = true := by
  rcases hl : lineHashes ic line with ⟨h1, h2⟩
  simp only [dictStep, hl]
  rcases h1 with _ | k1 <;> rcases h2 with _ | k2
  · exact h
  · exact dictHas_mono_insert k2 line h
  · exact dictHas_mono_insert k1 line h
  · exact dictHas_mono_insert k2 line (dictHas_mono_insert k1 line h)

/-- Dict membership is preserved by the whole index-building loop. -/
theorem dictHas_mono_foldl (ic : Bool) (lines : List String)
    {d : List (Digest × String)} {k : Digest} (h : dictHas d k = true) :
    dictHas (lines.foldl (dictStep ic) d) k = true := by
  induction lines generalizing d with
  | nil => exact h
  | cons line rest ih => exact ih (dictHas_mono_step ic line h)

/-- A positive probe test is preserved by further index-building. -/
theorem probeHit_mono_foldl (ic : Bool) (line : String) (rest : List String)
    {d : List (Digest × String)} (h : probeHitDict d ic line = true) :
    probeHitDict (rest.foldl (dictStep ic) d) ic line = true := by
  rcases hl : lineHashes ic line with ⟨h1, h2⟩
  simp only [probeHitDict, hl] at h ⊢
  rcases h1 with _ | k1 <;> rcases h2 with _ | k2 <;> simp only [Bool.or_false,
    Bool.false_or] at h ⊢
  · exact h
  · exact dictHas_mono_foldl ic rest h
  · exact dictHas_mono_foldl ic rest h
  · rcases Bool.or_eq_true_iff.mp h with h' | h'
    · exact Bool.or_eq_true_iff.mpr (Or.inl (dictHas_mono_foldl ic rest h'))
    · exact Bool.or_eq_true_iff.mpr (Or.inr (dictHas_mono_foldl ic rest h'))

/-- After indexing a structured line, its token-shape fingerprint is in the
dict (the token strategy always succeeds and is always inserted). -/
theorem tokenHash_mem_dictStep (d : List (Digest × String)) (line : String) :
    dictHas (dictStep true d line) (get_tokens line) = true := by
  cases hast : get_ast_hash line <;>
    simp only [dictStep, lineHashes, if_pos, hast] <;>
    exact (dictHas_dictInsert _ _ _ _).mpr (Or.inr rfl)

/-- A line probes positively against an index whose building step has just
processed that very line. -/
theorem probeHit_self_step (ic : Bool) (d : List (Digest × String)) (line : String) :
    probeHitDict (dictStep ic d line) ic line = true := by
  cases ic with
  | false =>
    have hmem : dictHas (dictInsert d (get_text_hash line) line) (get_text_hash line) = true :=
      (dictHas_dictInsert _ _ _ _).mpr (Or.inr rfl)
    simp [probeHitDict, dictStep, lineHashes, hmem]
  | true =>
    have hmem : dictHas (dictStep true d line) (get_tokens line) = true :=
      tokenHash_mem_dictStep d line
    simp [probeHitDict, lineHashes, hmem]

/-- Every indexed line probes positively against the finished index. -/
theorem probeHit_self_foldl (ic : Bool) (lines : List String) :
    ∀ (d : List (Digest × String)) (line : String), line ∈ lines →
      probeHitDict (lines.foldl (dictStep ic) d) ic line = true := by
  induction lines with
  | nil => intro d line h; exact absurd h (List.not_mem_nil line)
  | cons x rest ih =>
    intro d line hmem
    rcases List.mem_cons.mp hmem with rfl | hmem
    · exact probeHit_mono_foldl ic line rest (probeHit_self_step ic d line)
    · exact ih (dictStep ic d x) line hmem

/-- A nonempty character list splits into at least one line. -/
theorem pySplitlinesAux_ne_nil (cs : List Char) (h : cs ≠ []) :
    pySplitlinesAux cs ≠ [] := by
  cases cs with
  | nil => exact absurd rfl h
  | cons c rest =>
    simp only [pySplitlinesAux]
    split
    · simp
    · split <;> simp

/-- A nonempty text splits into at least one line. -/
theorem pySplitlines_ne_nil (s : String) (h : s ≠ "") : pySplitlines s ≠ [] := by
  have hd : s.data ≠ [] := by
    intro hdata
    exact h (String.ext (hdata.trans (by decide)))
  simp only [pySplitlines]
  intro hmap
  exact pySplitlinesAux_ne_nil s.data hd (List.map_eq_nil_iff.mp hmap)

/-- C4: self-similarity — comparing any nonempty text against itself, in
either content class, yields 100% overlap. -/
theorem claim4_self_similarity (X : String) (is_code : Bool) (hX : X ≠ "") :
    (compare_files_core X X is_code).overlap_percentage = 100 := by
  have hall : ∀ l ∈ pySplitlines X,
      probeHitDict (buildDict (pySplitlines X) is_code) is_code l = true :=
    fun l hl => probeHit_self_foldl is_code (pySplitlines X) [] l hl
  have hfilter :
      (pySplitlines X).filter (probeHitDict (buildDict (pySplitlines X) is_code) is_code)
        = pySplitlines X := List.filter_eq_self.mpr hall
  have hpos : 0 < (pySplitlines X).length :=
    List.length_pos.mpr (pySplitlines_ne_nil X hX)
  simp only [compare_files_core, hfilter, if_pos hpos]
  rw [div_self, one_mul]
  exact Nat.cast_ne_zero.mpr hpos.ne'

/-- C4 witness: the self-comparison of the one-line text `"a"`. -/
theorem claim4_witness : (compare_files_core "a" "a" true).overlap_percentage = 100 :=
  claim4_self_similarity "a" true (by decide)

/-- C5: the percentage invariant — `overlap_percentage` is
`100 * overlap_count / total_lines` when the probe document has lines and `0`
otherwise; in particular, comparing any text against the empty candidate
yields percentage `0` and count `0`. -/
theorem claim5_percentage_invariant (content1 content2 : String) (is_code : Bool) :
    ((pySplitlines content2).length > 0 →
      (compare_files_core content1 content2 is_code).overlap_percentage
        = 100 * ((compare_files_core content1 content2 is_code).overlap_count : ℚ)
            / ((pySplitlines content2).length : ℚ))
    ∧ ((pySplitlines content2).length = 0 →
      (compare_files_core content1 content2 is_code).overlap_percentage = 0)
    ∧ (compare_files_core content1 "" is_code).overlap_percentage = 0
    ∧ (compare_files_core content1 "" is_code).overlap_count = 0 := by
  have hempty : pySplitlines "" = [] := by decide
  refine ⟨?_, ?_, ?_, ?_⟩
  · intro hpos
    simp only [compare_files_core, if_pos hpos]
    ring
  · intro h0
    simp only [compare_files_core]
    rw [if_neg]
    omega
  · simp [compare_files_core, hempty]
  · simp [compare_files_core, hempty]

/-- C5 witness: the invariant instantiated on the concrete comparison of
`"a"` against `"b"` (one probe line), and on the empty candidate. -/
theorem claim5_witness :
    (compare_files_core "a" "b" true).overlap_percentage
      = 100 * ((compare_files_core "a" "b" true).overlap_count : ℚ)
          / ((pySplitlines "b").length : ℚ)
    ∧ (compare_files_core "a" "" true).overlap_percentage = 0 :=
  ⟨(claim5_percentage_invariant "a" "b" true).1 (by decide),
    (claim5_percentage_invariant "a" "b" true).2.2.1⟩

/-- C6: token-masking invariance — two single-line structured documents with
the same token-shape fingerprint (as any pair differing only by identifier
renaming has) compare at 100%. -/
theorem claim6_token_masking_invariance (a b : String)
    (ha : pySplitlines a = [a]) (hb : pySplitlines b = [b])
    (hmask : get_tokens a = get_tokens b) :
    (compare_files_core a b true).overlap_percentage = 100 := by
  have htok : dictHas (buildDict [a] true) (get_tokens b) = true := by
    rw [← hmask]
    simpa [buildDict] using tokenHash_mem_dictStep [] a
  have hhit : probeHitDict (buildDict [a] true) true b = true := by
    simp [probeHitDict, lineHashes, htok]
  simp [compare_files_core, ha, hb, List.filter_cons, hhit]

/-- C6 witness: the spec's renamed-identifier pair
`def foo(x): return x+1` / `def bar(y): return y+1`. -/
theorem claim6_witness :
    (compare_files_core "def foo(x): return x+1" "def bar(y): return y+1" true).overlap_percentage
      = 100 :=
  claim6_token_masking_invariance
    "def foo(x): return x+1" "def bar(y): return y+1"
    (by decide) (by decide) (by decide)

/-- C1 counterexample: on `A = "x = 1\ny = 2"` against `B = "x = 1\nz = 3"`
in the structured class, the code does NOT return
`(overlap_count, overlap_percentage, matched) = (1, 50, ["x = 1"])`:
the line `"z = 3"` also matches, via the token-shape fingerprint
(`"z = 3"`, `"x = 1"` and `"y = 2"` all mask to `"TOKEN = TOKEN"`). -/
theorem claim1_counterexample :
    ¬ ((compare_files_core "x = 1\ny = 2" "x = 1\nz = 3" true).overlap_count = 1
      ∧ (compare_files_core "x = 1\ny = 2" "x = 1\nz = 3" true).overlap_percentage = 50
      ∧ (compare_files_core "x = 1\ny = 2" "x = 1\nz = 3" true).overlapping_lines
          = ["x = 1"]) := by
  rintro ⟨h1, -, -⟩
  have h2 : (compare_files_core "x = 1\ny = 2" "x = 1\nz = 3" true).overlap_count = 2 := by
    decide
  omega

/-- C1 amended: the structured comparison of `A = ["x = 1", "y = 2"]` against
`B = ["x = 1", "z = 3"]` returns `overlap_count = 2`, `total_lines = 2`,
`overlap_percentage = 100` and `matched_lines = ["x = 1", "z = 3"]`, because
`"z = 3"` token-masks identically to the indexed lines. -/
theorem claim1_amended :
    compare_files_core "x = 1\ny = 2" "x = 1\nz = 3" true
      = ⟨100, 2, ["x = 1", "z = 3"]⟩
    ∧ (pySplitlines "x = 1\nz = 3").length = 2 := by
  have hsplit : pySplitlines "x = 1\nz = 3" = ["x = 1", "z = 3"] := by decide
  have hfilter :
      List.filter (probeHitDict (buildDict (pySplitlines "x = 1\ny = 2") true) true)
          ["x = 1", "z = 3"]
        = ["x = 1", "z = 3"] := by decide
  refine ⟨?_, by rw [hsplit]; rfl⟩
  simp only [compare_files_core, hsplit, hfilter]
  norm_num [OverlapResult.mk.injEq]

/-- C7: asymmetry — there are texts and a content class for which swapping
the index and probe arguments changes the overlap percentage. -/
theorem claim7_asymmetry :
    ∃ (X Y : String) (is_code : Bool),
      (compare_files_core X Y is_code).overlap_percentage
        ≠ (compare_files_core Y X is_code).overlap_percentage := by
  refine ⟨"a+b\nc*d", "a+b", true, ?_⟩
  have hsplit1 : pySplitlines "a+b" = ["a+b"] := by decide
  have hsplit2 : pySplitlines "a+b\nc*d" = ["a+b", "c*d"] := by decide
  have hfilter1 :
      List.filter (probeHitDict (buildDict ["a+b", "c*d"] true) true) ["a+b"]
        = ["a+b"] := by decide
  have hfilter2 :
      List.filter (probeHitDict (buildDict ["a+b"] true) true) ["a+b", "c*d"]
        = ["a+b"] := by decide
  simp only [compare_files_core, hsplit1, hsplit2, hfilter1, hfilter2]
  norm_num

/-- C10: `get_text_hash` and `get_tokens` are the same computation — both
mask every maximal word run with `TOKEN` and hash the result — so a line's
free-text fingerprint membership implies its token-shape fingerprint
membership in the same index. -/
theorem claim10_hash_equivalence :
    (∀ s : String, get_text_hash s = get_tokens s)
    ∧ ∀ (d : List (Digest × String)) (line : String),
        probeHitDict d false line = true → dictHas d (get_tokens line) = true := by
  refine ⟨fun s => rfl, fun d line h => ?_⟩
  simpa [probeHitDict, lineHashes] using h

/-- C10 witness: instantiated on the line `"a+b"` and a one-entry index. -/
theorem claim10_witness :
    get_text_hash "a+b" = get_tokens "a+b"
    ∧ dictHas [(get_tokens "a+b", "a+b")] (get_tokens "a+b") = true :=
  ⟨claim10_hash_equivalence.1 "a+b",
    claim10_hash_equivalence.2 [(get_tokens "a+b", "a+b")] "a+b" (by decide)⟩

/-- C3 counterexample: extraction failures DO propagate for plain-text
extensions — `get_text_from_file` on an unreadable `.py` file re-raises the
read error instead of returning empty text (only the pdf/docx branches catch
exceptions). -/
theorem claim3_counterexample :
    get_text_from_file fsAllFail "a.py" = Except.error "boom" := rfl

/-- C3 amended: extraction never propagates an error for the binary
container extensions (`pdf`, `docx`) — those extractors swallow all
failures; for every other extension, read errors propagate to the caller
(witnessed by `claim3_counterexample`). -/
theorem claim3_amended (fs : FileSystem) (path : String)
    (h : extLower path = "pdf" ∨ extLower path = "docx") :
    (get_text_from_file fs path).isOk = true := by
  rcases h with h | h <;> simp [get_text_from_file, h, Except.isOk, Except.toBool]

/-- C3 witness: a pdf whose container open fails still extracts without
error. -/
theorem claim3_witness : (get_text_from_file fsAllFail "a.pdf").isOk = true :=
  claim3_amended fsAllFail "a.pdf" (Or.inl (by decide))

/-! ### Helper lemmas: pair enumeration and grouping -/

/-- `combinations2` produces `n.choose 2` pairs. -/
theorem combinations2_length {α : Type} (l : List α) :
    (combinations2 l).length = l.length.choose 2 := by
  induction l with
  | nil => rfl
  | cons x xs ih =>
    simp [combinations2, ih, Nat.choose_succ_succ, Nat.choose_one_right,
      Nat.add_comm]

/-- Both components of a generated pair are list members. -/
theorem mem_combinations2 {α : Type} {l : List α} {p : α × α}
    (h : p ∈ combinations2 l) : p.1 ∈ l ∧ p.2 ∈ l := by
  induction l with
  | nil => simp [combinations2] at h
  | cons x xs ih =>
    simp only [combinations2, List.mem_append, List.mem_map] at h
    rcases h with ⟨y, hy, rfl⟩ | h
    · exact ⟨List.mem_cons_self x xs, List.mem_cons_of_mem x hy⟩
    · rcases ih h with ⟨h1, h2⟩
      exact ⟨List.mem_cons_of_mem x h1, List.mem_cons_of_mem x h2⟩

/-- On a duplicate-free list, no generated pair is a self-pair. -/
theorem combinations2_ne {α : Type} {l : List α} (hn : l.Nodup) {p : α × α}
    (h : p ∈ combinations2 l) : p.1 ≠ p.2 := by
  induction l with
  | nil => simp [combinations2] at h
  | cons x xs ih =>
    rcases List.nodup_cons.mp hn with ⟨hx, hxs⟩
    simp only [combinations2, List.mem_append, List.mem_map] at h
    rcases h with ⟨y, hy, rfl⟩ | h
    · exact fun hxy => hx ((show x = y from hxy) ▸ hy)
    · exact ih hxs h

/-- In a duplicate-free list, exactly one element equals a given member. -/
theorem countP_eq_one_self {α : Type} [DecidableEq α] {l : List α} {a : α}
    (hn : l.Nodup) (h : a ∈ l) : l.countP (fun y => y = a) = 1 := by
  induction l with
  | nil => simp at h
  | cons x xs ih =>
    rcases List.nodup_cons.mp hn with ⟨hx, hxs⟩
    rw [List.countP_cons]
    rcases List.mem_cons.mp h with rfl | hmem
    · have hz : xs.countP (fun y => y = a) = 0 :=
        List.countP_eq_zero.mpr fun y hy hya =>
          hx ((of_decide_eq_true hya) ▸ hy)
      simp [hz]
    · have hxa : ¬ (x = a) := fun hxa => hx (hxa ▸ hmem)
      simp [ih hxs hmem, hxa]

/-- Each unordered pair of distinct members is generated exactly once by
`combinations2` on a duplicate-free list. -/
theorem countP_pair_combinations2 {α : Type} [DecidableEq α] {l : List α}
    {a b : α} (hn : l.Nodup) (ha : a ∈ l) (hb : b ∈ l) (hab : a ≠ b) :
    (combinations2 l).countP (fun p => p = (a, b) ∨ p = (b, a)) = 1 := by
  induction l with
  | nil => simp at ha
  | cons x xs ih =>
    rcases List.nodup_cons.mp hn with ⟨hx, hxs⟩
    simp only [combinations2]
    rw [List.countP_append, List.countP_map]
    by_cases hxa : x = a
    · subst hxa
      have hb' : b ∈ xs := by
        rcases List.mem_cons.mp hb with rfl | h
        · exact absurd rfl hab
        · exact h
      have hmap : xs.countP ((fun p => decide (p = (x, b) ∨ p = (b, x))) ∘ (fun y => (x, y)))
          = xs.countP (fun y => y = b) :=
        List.countP_congr fun y hy => by
          simp [Function.comp, Prod.ext_iff, hab]
      have hrec : (combinations2 xs).countP (fun p => p = (x, b) ∨ p = (b, x)) = 0 := by
        apply List.countP_eq_zero.mpr
        intro p hp hpred
        rcases of_decide_eq_true hpred with rfl | rfl
        · exact hx (mem_combinations2 hp).1
        · exact hx (mem_combinations2 hp).2
      rw [hmap, hrec, countP_eq_one_self hxs hb']
    · by_cases hxb : x = b
      · subst hxb
        have ha' : a ∈ xs := by
          rcases List.mem_cons.mp ha with rfl | h
          · exact absurd rfl hab
          · exact h
        have hba : ¬ (x = a) := fun h => hab h.symm
        have hmap : xs.countP ((fun p => decide (p = (a, x) ∨ p = (x, a))) ∘ (fun y => (x, y)))
            = xs.countP (fun y => y = a) :=
          List.countP_congr fun y hy => by
            simp [Function.comp, Prod.ext_iff, hba]
        have hrec : (combinations2 xs).countP (fun p => p = (a, x) ∨ p = (x, a)) = 0 := by
          apply List.countP_eq_zero.mpr
          intro p hp hpred
          rcases of_decide_eq_true hpred with rfl | rfl
          · exact hx (mem_combinations2 hp).2
          · exact hx (mem_combinations2 hp).1
        rw [hmap, hrec, countP_eq_one_self hxs ha']
      · have ha' : a ∈ xs := by
          rcases List.mem_cons.mp ha with rfl | h
          · exact absurd rfl hxa
          · exact h
        have hb' : b ∈ xs := by
          rcases List.mem_cons.mp hb with rfl | h
          · exact absurd rfl hxb
          · exact h
        have hmap : xs.countP ((fun p => decide (p = (a, b) ∨ p = (b, a))) ∘ (fun y => (x, y)))
            = 0 := by
          apply List.countP_eq_zero.mpr
          intro y hy hpred
          simp [Function.comp, Prod.ext_iff, hxa, hxb] at hpred
        rw [hmap, ih hxs ha' hb']

/-- The descending-percentage comparison is transitive. -/
theorem pctGE_trans (a b c : String × String × ℚ)
    (hab : pctGE a b = true) (hbc : pctGE b c = true) : pctGE a c = true := by
  simp only [pctGE, decide_eq_true_eq] at *
  exact le_trans hbc hab

/-- The descending-percentage comparison is total. -/
theorem pctGE_total (a b : String × String × ℚ) : (pctGE a b || pctGE b a) = true := by
  rcases le_total a.2.2 b.2.2 with h | h <;> simp [pctGE, h]

/-- C8: grouping completeness — on a duplicate-free batch satisfying the
same-language precondition, `group_similar_files` returns exactly
`N·(N−1)/2` similarity edges, each unordered pair of distinct documents
appearing exactly once, and no document paired with itself. -/
theorem claim8_grouping_completeness (contents : String → String)
    (paths : List String) (hnd : paths.Nodup)
    (_hlang : validate_all_same_language paths = true) :
    (group_similar_files contents paths).length
      = paths.length * (paths.length - 1) / 2
    ∧ (∀ a b, a ∈ paths → b ∈ paths → a ≠ b →
        (group_similar_files contents paths).countP
          (fun e => (e.1, e.2.1) = (a, b) ∨ (e.1, e.2.1) = (b, a)) = 1)
    ∧ ∀ e ∈ group_similar_files contents paths, e.1 ≠ e.2.1 := by
  have hperm : (group_similar_files contents paths).Perm
      (group_similarities contents paths) :=
    List.mergeSort_perm _ _
  refine ⟨?_, ?_, ?_⟩
  · rw [hperm.length_eq]
    simp only [group_similarities, List.length_map]
    rw [combinations2_length, Nat.choose_two_right]
  · intro a b ha hb hab
    rw [hperm.countP_eq]
    unfold group_similarities
    rw [List.countP_map]
    have hcong :
        (combinations2 paths).countP
            ((fun e : String × String × ℚ =>
                decide ((e.1, e.2.1) = (a, b) ∨ (e.1, e.2.1) = (b, a)))
              ∘ (fun p : String × String =>
                (p.1, p.2, (compare_two_codes (contents p.1) (contents p.2)
                  (!(["txt", "pdf", "docx"].contains (extAfterDot p.1)))).1)))
          = (combinations2 paths).countP (fun p => p = (a, b) ∨ p = (b, a)) :=
      List.countP_congr fun p hp => by
        simp [Function.comp, Prod.ext_iff]
    rw [hcong]
    exact countP_pair_combinations2 hnd ha hb hab
  · intro e he
    rw [hperm.mem_iff] at he
    unfold group_similarities at he
    rcases List.mem_map.mp he with ⟨p, hp, rfl⟩
    exact combinations2_ne hnd hp

/-- C8 witness: a concrete three-document same-language batch. -/
theorem claim8_witness :
    (group_similar_files (fun _ => "x = 1") ["a.py", "b.py", "c.py"]).length
      = 3 * (3 - 1) / 2
    ∧ (group_similar_files (fun _ => "x = 1") ["a.py", "b.py", "c.py"]).countP
        (fun e => (e.1, e.2.1) = ("a.py", "b.py") ∨ (e.1, e.2.1) = ("b.py", "a.py")) = 1 :=
  ⟨(claim8_grouping_completeness (fun _ => "x = 1") ["a.py", "b.py", "c.py"]
      (by decide) (by decide)).1,
    (claim8_grouping_completeness (fun _ => "x = 1") ["a.py", "b.py", "c.py"]
      (by decide) (by decide)).2.1 "a.py" "b.py" (by decide) (by decide) (by decide)⟩

/-- C9: grouping order — the edge list is sorted by non-increasing overlap
percentage, and edges of equal percentage retain the relative order in which
pair enumeration generated them (the filtered subsequences agree with the
unsorted similarity list). -/
theorem claim9_grouping_order (contents : String → String) (paths : List String) :
    List.Pairwise (fun a b : String × String × ℚ => b.2.2 ≤ a.2.2)
      (group_similar_files contents paths)
    ∧ ∀ q : ℚ,
        (group_similar_files contents paths).filter (fun e => e.2.2 = q)
          = (group_similarities contents paths).filter (fun e => e.2.2 = q) := by
  constructor
  · exact (List.sorted_mergeSort pctGE_trans pctGE_total
      (group_similarities contents paths)).imp fun hab => of_decide_eq_true hab
  · intro q
    have hpair : List.Pairwise (fun a b => pctGE a b = true)
        ((group_similarities contents paths).filter (fun e => e.2.2 = q)) := by
      apply List.pairwise_of_forall_mem_list
      intro x hx y hy
      have hxq := of_decide_eq_true (List.mem_filter.mp hx).2
      have hyq := of_decide_eq_true (List.mem_filter.mp hy).2
      simp [pctGE, hxq, hyq]
    have hsub : ((group_similarities contents paths).filter (fun e => e.2.2 = q)).Sublist
        (group_similar_files contents paths) :=
      List.sublist_mergeSort pctGE_trans pctGE_total hpair (List.filter_sublist _)
    have hsub2 : ((group_similarities contents paths).filter (fun e => e.2.2 = q)).Sublist
        ((group_similar_files contents paths).filter (fun e => e.2.2 = q)) := by
      have hff := hsub.filter (fun e => e.2.2 = q)
      rwa [List.filter_filter, show
        (fun a : String × String × ℚ => decide (a.2.2 = q) && decide (a.2.2 = q))
          = fun a : String × String × ℚ => decide (a.2.2 = q) from
        funext fun a => Bool.and_self _] at hff
    have hlen : ((group_similar_files contents paths).filter (fun e => e.2.2 = q)).length
        = ((group_similarities contents paths).filter (fun e => e.2.2 = q)).length :=
      ((List.mergeSort_perm _ _).filter _).length_eq
    exact (hsub2.eq_of_length hlen.symm).symm
